import Mathlib

/-!
Verification of the specky OpenAPI-to-MCP translation layer.

The TypeScript sources are shallowly embedded below: pure functions become
Lean functions over an explicit JSON value type, JavaScript records become
association lists in insertion order, and the exception channel of a
function that can throw becomes an Except result. Network effects (fetch)
are passed in as explicit outcome values.
-/

namespace Specky

/-! ## JavaScript character and string semantics

The source manipulates strings with regexes over ASCII classes
([a-z], [A-Z], [a-zA-Z0-9_], \s) and with toLowerCase/toUpperCase.
We model characters through List Char and re-enter String at the edges.
-/

def isAsciiLower (c : Char) : Bool := 97 ≤ c.toNat && c.toNat ≤ 122

def isAsciiUpper (c : Char) : Bool := 65 ≤ c.toNat && c.toNat ≤ 90

def isAsciiDigit (c : Char) : Bool := 48 ≤ c.toNat && c.toNat ≤ 57

def isAsciiAlpha (c : Char) : Bool := isAsciiLower c || isAsciiUpper c

def isAsciiAlnum (c : Char) : Bool := isAsciiAlpha c || isAsciiDigit c

/-- ASCII toLowerCase on one character (identity outside A-Z). -/
def lowerChar (c : Char) : Char :=
  if isAsciiUpper c then Char.ofNat (c.toNat + 32) else c

/-- ASCII toUpperCase on one character (identity outside a-z). -/
def upperChar (c : Char) : Char :=
  if isAsciiLower c then Char.ofNat (c.toNat - 32) else c

/-- JavaScript String.prototype.toLowerCase restricted to ASCII input. -/
def lowerStr (s : String) : String := (s.toList.map lowerChar).asString

/-- JavaScript String.prototype.toUpperCase restricted to ASCII input. -/
def upperStr (s : String) : String := (s.toList.map upperChar).asString

/-- Occurrence of one character list inside another, at any position. -/
def charsContain : List Char → List Char → Bool
  | hay, needle =>
    match hay with
    | [] => needle.isEmpty
    | _ :: rest => needle.isPrefixOf hay || charsContain rest needle

/-- JavaScript hay.includes(needle): substring containment. -/
def jsIncludes (hay needle : String) : Bool :=
  charsContain hay.toList needle.toList

/-- Whitespace class of the JavaScript regex \s (ASCII part). -/
def isWs (c : Char) : Bool :=
  c = ' ' || c = '\t' || c = '\n' || c = '\r' ||
  c = Char.ofNat 11 || c = Char.ofNat 12

/-- Scanner for String.prototype.split on the regex of one-or-more
whitespace characters: the current word accumulates reversed, and the
flag records being inside a whitespace run (each run is one separator,
so only its first character emits the pending word; an input ending
inside a run emits a trailing empty piece, as the JavaScript split
does). -/
def splitWsAux : List Char → List Char → Bool → List (List Char)
  | [], cur, _ => [cur.reverse]
  | c :: rest, cur, inWs =>
    if isWs c then
      if inWs then splitWsAux rest cur true
      else cur.reverse :: splitWsAux rest [] true
    else splitWsAux rest (c :: cur) false

/-- JavaScript query.split(regex of one-or-more whitespace). -/
def splitWs (s : String) : List String :=
  (splitWsAux s.toList [] false).map List.asString

/-! ## JSON values and JavaScript object semantics

The parser and generator treat schemas, parameters and documents as
Record(string, unknown) values.  We embed them as a JSON value type;
objects are association lists in insertion order (JavaScript objects
preserve insertion order of string keys, and keys are unique). -/

inductive Json where
  | null
  | bool (b : Bool)
  | num (n : Int)
  | str (s : String)
  | arr (items : List Json)
  | obj (fields : List (String × Json))

/-- First binding of a key in an association list (JavaScript objects
hold each key once, so first binding is the binding). -/
def lookupField : List (String × Json) → String → Option Json
  | [], _ => none
  | (k, v) :: rest, key => if k = key then some v else lookupField rest key

/-- JavaScript property access o.k under a fixed non-numeric name: some
value when the field exists on an object, none (undefined) otherwise,
including on non-objects. -/
def getField (j : Json) (key : String) : Option Json :=
  match j with
  | Json.obj fields => lookupField fields key
  | _ => none

/-- JavaScript property access o[k] under a computed key, which can
also hit the index properties of arrays and strings. -/
def jsProp (j : Json) (key : String) : Option Json :=
  match j with
  | Json.obj fields => lookupField fields key
  | Json.arr items =>
    (items.enum.find? (fun p => toString p.1 = key)).map Prod.snd
  | Json.str s =>
    ((s.toList.enum.find? (fun p => toString p.1 = key)).map
      (fun p => Json.str (String.mk [p.2])))
  | _ => none

/-- JavaScript truthiness of a JSON value. -/
def truthy : Json → Bool
  | Json.null => false
  | Json.bool b => b
  | Json.num n => n ≠ 0
  | Json.str s => s ≠ ""
  | Json.arr _ => true
  | Json.obj _ => true

/-- Truthiness of a possibly absent field, as in tests like
`if (operation.tags)`: undefined is falsy. -/
def truthyOpt : Option Json → Bool
  | none => false
  | some v => truthy v

/-- JavaScript assignment o[k] = v: overwrite in place when the key
exists, append otherwise. -/
def recordSet (r : List (String × Json)) (key : String) (v : Json) :
    List (String × Json) :=
  match r with
  | [] => [(key, v)]
  | (k, w) :: rest =>
    if k = key then (k, v) :: rest else (k, w) :: recordSet rest key v

/-- JavaScript Object.entries, which the generator applies to a value it
only believes to be an object.  Objects yield their fields; arrays and
strings yield index-keyed entries; primitives yield nothing. -/
def jsEntries : Json → List (String × Json)
  | Json.obj fields => fields
  | Json.arr items =>
    items.enum.map (fun p => (toString p.1, p.2))
  | Json.str s =>
    (s.toList.map (fun c => Json.str (String.mk [c]))).enum.map
      (fun p => (toString p.1, p.2))
  | _ => []

/-- String extraction with a fallback, for fields the TypeScript types
promise to be strings (a non-string value would flow through untyped in
JavaScript; no claim exercises that corner). -/
def asStrD (v : Option Json) (fallback : String) : String :=
  match v with
  | some (Json.str s) => s
  | _ => fallback

/-- Optional string extraction for optional text fields. -/
def asStrOpt (v : Option Json) : Option String :=
  match v with
  | some (Json.str s) => some s
  | _ => none

/-- String elements of a JSON array, for string[]-typed fields. -/
def asStrList (v : Option Json) : List String :=
  match v with
  | some (Json.arr items) =>
    items.filterMap (fun j => match j with | Json.str s => some s | _ => none)
  | _ => []

/-- Values that satisfy the JavaScript test
`value && typeof value === "object"` (null fails the first conjunct,
arrays pass the second). -/
def isObjectLike : Json → Bool
  | Json.obj _ => true
  | Json.arr _ => true
  | _ => false

/-! ## Data model (src/types/index.ts) -/

structure ParameterInfo where
  name : String
  required : Bool
  description : Option String
  type : String
  format : Option String
  enum : Option Json
  default : Option Json

structure RequestBodyInfo where
  required : Bool
  description : Option String
  contentType : String
  schema : Json

structure ResponseInfo where
  statusCode : String
  description : Option String
  contentType : Option String
  schema : Option Json

structure ParsedEndpoint where
  operationId : String
  method : String
  path : String
  summary : Option String
  description : Option String
  pathParams : List ParameterInfo
  queryParams : List ParameterInfo
  headerParams : List ParameterInfo
  requestBody : Option RequestBodyInfo
  responses : List ResponseInfo
  tags : List String
  security : List String

structure ParsedSpec where
  title : String
  version : String
  description : Option String
  baseUrl : String
  endpoints : List ParsedEndpoint

/-! ## Spec parser (src/parser/swagger.ts)

parseSpec receives the already dereferenced document from the external
loader; we embed it from that point on, with the document as a JSON
value. -/

/-- Version discriminant: a string field openapi starting with "3.". -/
def isOpenAPIV3 (spec : Json) : Bool :=
  match getField spec "openapi" with
  | some (Json.str s) => "3.".isPrefixOf s
  | _ => false

/-- Version discriminant: a field swagger strictly equal to "2.0". -/
def isSwagger2 (spec : Json) : Bool :=
  match getField spec "swagger" with
  | some (Json.str s) => s = "2.0"
  | _ => false

/-- Base URL extraction.  v3: first server URL or http://localhost.
v2: scheme://host basePath with defaults https, localhost, empty. -/
def extractBaseUrl (spec : Json) : String :=
  if isOpenAPIV3 spec then
    match getField spec "servers" with
    | some (Json.arr (server :: _)) =>
      match getField server "url" with
      | some (Json.str s) => if s = "" then "http://localhost" else s
      | _ => "http://localhost"
    | _ => "http://localhost"
  else if isSwagger2 spec then
    let scheme := match getField spec "schemes" with
      | some (Json.arr (Json.str s :: _)) => if s = "" then "https" else s
      | _ => "https"
    let host := match getField spec "host" with
      | some (Json.str s) => if s = "" then "localhost" else s
      | _ => "localhost"
    let basePath := match getField spec "basePath" with
      | some (Json.str s) => s
      | _ => ""
    scheme ++ "://" ++ host ++ basePath
  else
    "http://localhost"

/-- OpenAPI type normalized to a JSON-Schema type: integer becomes
number, a falsy or absent type defaults to string. -/
def getJsonType (schema : Json) : String :=
  match getField schema "type" with
  | some (Json.str t) =>
    if t = "integer" then "number" else if t = "" then "string" else t
  | _ => "string"

/-- Parameter normalization, shared by both spec versions: v3 keeps the
type information in a nested truthy schema object, v2 keeps it directly
on the parameter, which then serves as its own schema record. -/
def parseParameter (param : Json) : ParameterInfo :=
  let rawSchema := match getField param "schema" with
    | some s => if truthy s then s else param
    | none => param
  { name := asStrD (getField param "name") ""
    required := truthyOpt (getField param "required")
    description := asStrOpt (getField param "description")
    type := getJsonType rawSchema
    format := asStrOpt (getField rawSchema "format")
    enum := getField rawSchema "enum"
    default := getField rawSchema "default" }

/-- JavaScript iteration of a value, as in spread syntax and for..of:
arrays yield their elements, strings yield their characters as
one-character strings, and any other value throws a TypeError.  A falsy
value never reaches this point in the parser — every iterated
expression is guarded by an or-empty-array default. -/
def spreadIterable : Json → Except String (List Json)
  | Json.arr items => Except.ok items
  | Json.str s =>
    Except.ok (s.toList.map (fun c => Json.str (String.mk [c])))
  | _ => Except.error "TypeError: value is not iterable"

/-- JavaScript Object.keys: the own enumerable keys of an object, the
index keys of an array or a string, nothing for a boxed number or
boolean, and a TypeError for null (undefined cannot occur inside a
parsed JSON document). -/
def jsObjectKeys : Json → Except String (List String)
  | Json.null => Except.error "TypeError: Object.keys called on null"
  | Json.obj fields => Except.ok (fields.map Prod.fst)
  | Json.arr items => Except.ok (items.enum.map (fun p => toString p.1))
  | Json.str s => Except.ok (s.toList.enum.map (fun p => toString p.1))
  | _ => Except.ok []

/-- A null element in a parameter list makes the very first location
filter throw when it reads p.in. -/
def hasNullParam (params : List Json) : Bool :=
  params.any (fun p => match p with | Json.null => true | _ => false)

/-- The security loop body: Object.keys of each entry, concatenated in
order; the first null entry aborts with the TypeError Object.keys
raises. -/
def securityKeys : List Json → Except String (List String)
  | [] => Except.ok []
  | sec :: rest =>
    match jsObjectKeys sec with
    | Except.error msg => Except.error msg
    | Except.ok keys =>
      match securityKeys rest with
      | Except.error msg => Except.error msg
      | Except.ok more => Except.ok (keys ++ more)

/-- v3 request body: first declared content type (default
application/json for an empty content map) and its schema (default
empty object).  A truthy body whose content field is absent or null
throws: the source calls Object.keys on it. -/
def parseRequestBody (requestBody : Option Json) :
    Except String (Option RequestBodyInfo) :=
  match requestBody with
  | none => Except.ok none
  | some rb =>
    if truthy rb then
      match getField rb "content" with
      | none => Except.error "TypeError: Object.keys called on undefined"
      | some Json.null => Except.error "TypeError: Object.keys called on null"
      | some content =>
        let contentType := match (jsEntries content).head? with
          | some (k, _) => if k = "" then "application/json" else k
          | none => "application/json"
        let schema := match jsProp content contentType with
          | some mediaType =>
            match getField mediaType "schema" with
            | some s => if truthy s then s else Json.obj []
            | none => Json.obj []
          | none => Json.obj []
        Except.ok (some
          { required := truthyOpt (getField rb "required")
            description := asStrOpt (getField rb "description")
            contentType := contentType
            schema := schema })
    else Except.ok none

/-- v2 request body: the single parameter located in body, if any. -/
def parseBodyParam (params : List Json) : Option RequestBodyInfo :=
  match params.find? (fun p =>
      match getField p "in" with
      | some (Json.str s) => s = "body"
      | _ => false) with
  | none => none
  | some bodyParam =>
    some { required := truthyOpt (getField bodyParam "required")
           description := asStrOpt (getField bodyParam "description")
           contentType := "application/json"
           schema := match getField bodyParam "schema" with
             | some s => if truthy s then s else Json.obj []
             | none => Json.obj [] }

/-- Responses are informational: status code, description, first content
type and its schema; non-object entries are skipped. -/
def parseResponses (responses : Json) : List ResponseInfo :=
  (jsEntries responses).filterMap (fun entry =>
    let statusCode := entry.1
    let response := entry.2
    if isObjectLike response then
      let content := getField response "content"
      let contentType : Option String := match content with
        | some c =>
          if truthy c then
            match (jsEntries c).head? with
            | some (k, _) => some k
            | none => none
          else none
        | none => none
      let schema : Option Json := match contentType, content with
        | some ct, some c =>
          if ct ≠ "" then
            match jsProp c ct with
            | some mediaType => getField mediaType "schema"
            | none => none
          else none
        | _, _ => none
      some { statusCode := statusCode
             description := asStrOpt (getField response "description")
             contentType := contentType
             schema := schema }
    else none)

/-- Scanner for the global placeholder replacement in
generateOperationId: replace each match of an opening brace, one or
more non-closing-brace characters, and a closing brace by the
capitalized captured text, scanning left to right without overlap.
The state is the pending placeholder body (reversed) once an opening
brace was seen.  A closing brace with a non-empty body completes a
match; with an empty body the braces did not match (the regex body
needs at least one character) and both stay verbatim; an exhausted
input leaves the pending text verbatim. -/
def phAux : List Char → Option (List Char) → List Char
  | [], none => []
  | [], some acc => '{' :: acc.reverse
  | c :: rest, none =>
    if c = '{' then phAux rest (some []) else c :: phAux rest none
  | c :: rest, some acc =>
    if c = '}' then
      match acc.reverse with
      | [] => '{' :: '}' :: phAux rest none
      | p :: ps => upperChar p :: ps ++ phAux rest none
    else phAux rest (some (c :: acc))

/-- The placeholder replacement pass over a whole character list. -/
def phScan (l : List Char) : List Char := phAux l none

/-- JavaScript word.charAt(0).toUpperCase() + word.slice(1). -/
def capFirst : List Char → List Char
  | [] => []
  | c :: rest => upperChar c :: rest

/-- JavaScript String.prototype.split on a literal single space. -/
def splitOnSpace : List Char → List Char → List (List Char)
  | [], cur => [cur.reverse]
  | c :: rest, cur =>
    if c = ' ' then cur.reverse :: splitOnSpace rest []
    else splitOnSpace rest (c :: cur)

/-- Camel-case join: first word lowercased, later words with the first
character uppercased and the rest lowercased. -/
def camelJoin (words : List (List Char)) : List Char :=
  (words.enum.map (fun p =>
    if p.1 = 0 then p.2.map lowerChar
    else match p.2 with
      | [] => []
      | c :: rest => upperChar c :: rest.map lowerChar)).flatten

/-- Synthesized operation identifier for operations without a declared
operationId: capitalize path placeholders in place, turn the remaining
non-alphanumeric characters into spaces, split and camel-case the
words, and append them capitalized to the lowercased method. -/
def generateOperationId (method path : String) : String :=
  let cleanPath :=
    camelJoin ((splitOnSpace
      ((phScan path.toList).map (fun c => if isAsciiAlnum c then c else ' '))
      []).filter (fun w => ¬w.isEmpty))
  lowerStr method ++ (capFirst cleanPath).asString

/-- HTTP methods probed on every path item, in source order. -/
def httpMethods : List String :=
  ["get", "post", "put", "patch", "delete", "head", "options"]

/-- Normalization of one operation into the canonical endpoint shape:
path-item parameters spread together with operation parameters (a
truthy non-iterable in either place throws), bucketed by declared
location (a null element throws when its location is read); body from
the v3 requestBody or the v2 body-location parameter; security names
unioned in declaration order (a truthy non-iterable security or a null
entry throws); any such TypeError aborts the parse, in source order:
parameters, then the location filters, then the request body, then
security. -/
def parseOperation (method path : String) (operation : Json)
    (pathParams : Json) (isV3 : Bool) : Except String ParsedEndpoint :=
  match spreadIterable pathParams with
  | Except.error msg => Except.error msg
  | Except.ok pathParamsList =>
    match spreadIterable (match getField operation "parameters" with
        | some p => if truthy p then p else Json.arr []
        | none => Json.arr []) with
    | Except.error msg => Except.error msg
    | Except.ok opParamsList =>
      let allParams := pathParamsList ++ opParamsList
      if hasNullParam allParams then
        Except.error "TypeError: cannot read properties of null"
      else
        let paramIn : Json → String → Bool := fun p loc =>
          match getField p "in" with
          | some (Json.str s) => s = loc
          | _ => false
        match (if isV3 then parseRequestBody (getField operation "requestBody")
            else Except.ok (parseBodyParam allParams)) with
        | Except.error msg => Except.error msg
        | Except.ok requestBody =>
          match (match getField operation "security" with
              | some sec =>
                if truthy sec then
                  match spreadIterable sec with
                  | Except.error msg => Except.error msg
                  | Except.ok secs => securityKeys secs
                else Except.ok []
              | none => Except.ok []) with
          | Except.error msg => Except.error msg
          | Except.ok security =>
            Except.ok
              { operationId := match getField operation "operationId" with
                  | some (Json.str s) =>
                    if s = "" then generateOperationId method path else s
                  | _ => generateOperationId method path
                method := method
                path := path
                summary := asStrOpt (getField operation "summary")
                description := asStrOpt (getField operation "description")
                pathParams := (allParams.filter
                  (fun p => paramIn p "path")).map parseParameter
                queryParams := (allParams.filter
                  (fun p => paramIn p "query")).map parseParameter
                headerParams := (allParams.filter
                  (fun p => paramIn p "header")).map parseParameter
                requestBody := requestBody
                responses := parseResponses
                  (match getField operation "responses" with
                    | some r => if truthy r then r else Json.obj []
                    | none => Json.obj [])
                tags := asStrList (getField operation "tags")
                security := security }

/-- The inner loop of parseSpec over the seven methods of one path
item: each truthy operation is parsed in order, and the first TypeError
aborts the loop. -/
def parseMethods (path : String) (pathItem pathParams : Json)
    (isV3 : Bool) : List String → Except String (List ParsedEndpoint)
  | [] => Except.ok []
  | m :: ms =>
    match (match getField pathItem m with
        | some op =>
          if truthy op then
            match parseOperation m path op pathParams isV3 with
            | Except.error msg => Except.error msg
            | Except.ok e => Except.ok [e]
          else Except.ok []
        | none => Except.ok []) with
    | Except.error msg => Except.error msg
    | Except.ok head =>
      match parseMethods path pathItem pathParams isV3 ms with
      | Except.error msg => Except.error msg
      | Except.ok tail => Except.ok (head ++ tail)

/-- The outer loop of parseSpec over the path entries: non-object path
items are skipped; the parameters field of an object path item is taken
raw (with the or-empty-array default) and spread only inside
parseOperation, as in the source. -/
def parsePathEntries (isV3 : Bool) :
    List (String × Json) → Except String (List ParsedEndpoint)
  | [] => Except.ok []
  | (path, pathItem) :: rest =>
    match (if isObjectLike pathItem then
        parseMethods path pathItem
          (match getField pathItem "parameters" with
            | some p => if truthy p then p else Json.arr []
            | none => Json.arr [])
          isV3 httpMethods
      else Except.ok []) with
    | Except.error msg => Except.error msg
    | Except.ok eps =>
      match parsePathEntries isV3 rest with
      | Except.error msg => Except.error msg
      | Except.ok more => Except.ok (eps ++ more)

/-- Full document normalization.  The dereferenced document is the
input; absent paths means zero endpoints, non-object path items are
skipped, and each truthy operation under one of the seven methods
becomes an endpoint.  The failures are the TypeErrors of the source:
malformed parameters or security inside an operation abort the loop
first, and an absent or null info object throws when the title is read
in the final return. -/
def parseSpec (api : Json) : Except String ParsedSpec :=
  let isV3 := isOpenAPIV3 api
  let baseUrl := extractBaseUrl api
  let paths := match getField api "paths" with
    | some p => if truthy p then p else Json.obj []
    | none => Json.obj []
  match parsePathEntries isV3 (jsEntries paths) with
  | Except.error msg => Except.error msg
  | Except.ok endpoints =>
    match getField api "info" with
    | none => Except.error "TypeError: cannot read properties of undefined"
    | some Json.null => Except.error "TypeError: cannot read properties of null"
    | some info =>
      Except.ok
        { title := asStrD (getField info "title") ""
          version := asStrD (getField info "version") ""
          description := asStrOpt (getField info "description")
          baseUrl := baseUrl
          endpoints := endpoints }

/-! ## Tool generator (src/generator/mcp-tools.ts) -/

/-- Camel-to-snake boundary pass of generateToolName: the global
replacement of a lowercase letter immediately followed by an uppercase
letter with the same pair separated by an underscore; matches do not
overlap, scanning resumes after each matched pair. -/
def camelSnake : List Char → List Char
  | a :: b :: rest =>
    if isAsciiLower a && isAsciiUpper b then a :: '_' :: b :: camelSnake rest
    else a :: camelSnake (b :: rest)
  | l => l

/-- Replacement of every character outside [A-Za-z0-9_] with an
underscore, one character at a time. -/
def sanitizeChar (c : Char) : Char :=
  if isAsciiAlnum c || c = '_' then c else '_'

/-- Tool name: operationId with camel boundaries underscored, every
character outside the word class replaced by an underscore, lowercased. -/
def generateToolName (endpoint : ParsedEndpoint) : String :=
  (((camelSnake endpoint.operationId.toList).map sanitizeChar).map
      lowerChar).asString

/-- Truthiness of an optional string field, as tested by
`if (endpoint.summary)`: absent or empty is falsy. -/
def strOptTruthy : Option String → Bool
  | some s => s ≠ ""
  | none => false

/-- Tool description: summary (or METHOD path), the description when
truthy and distinct from the summary, and the comma-joined tags, with
blank-line separators. -/
def generateToolDescription (endpoint : ParsedEndpoint) : String :=
  let head := if strOptTruthy endpoint.summary then [endpoint.summary.getD ""]
    else [upperStr endpoint.method ++ " " ++ endpoint.path]
  let middle := match endpoint.description with
    | some d =>
      if d ≠ "" && endpoint.summary ≠ some d then [d] else []
    | none => []
  let tail := if endpoint.tags.isEmpty then []
    else ["Tags: " ++ String.intercalate ", " endpoint.tags]
  String.intercalate "\n\n" (head ++ middle ++ tail)

/-- JSON-Schema-shaped property for one parameter: type and description
always (an absent description is an undefined-valued key in the source,
observably the same as an absent key), then format, non-empty enum and
defined default when present. -/
def paramToJsonSchema (param : ParameterInfo) : Json :=
  Json.obj (
    [("type", Json.str param.type)]
    ++ (match param.description with
        | some d => [("description", Json.str d)]
        | none => [])
    ++ (match param.format with
        | some f => if f ≠ "" then [("format", Json.str f)] else []
        | none => [])
    ++ (match param.enum with
        | some (Json.arr l) => if l.isEmpty then [] else [("enum", Json.arr l)]
        | _ => [])
    ++ (match param.default with
        | some v => [("default", v)]
        | none => []))

/-- The input-schema shape every generated tool carries. -/
structure InputSchema where
  type : String
  properties : List (String × Json)
  required : List String

/-- Loop of generateInputSchema over one parameter bucket: each
parameter contributes a property, and its name to required when the
parameter is required. -/
def addParamsToSchema : List ParameterInfo →
    List (String × Json) × List String → List (String × Json) × List String
  | [], acc => acc
  | p :: ps, (props, req) =>
    addParamsToSchema ps
      (recordSet props p.name (paramToJsonSchema p),
       if p.required then req ++ [p.name] else req)

/-- Membership test bodyRequired.includes(propName) where bodyRequired
is the required field of the body schema coerced by
`(bodySchema.required as string[]) || []`: an array matches by strict
string equality of its elements, a truthy string by substring search
(the JavaScript string includes), anything falsy yields no matches.  A
truthy value of another shape would throw in the source; no claim
reaches it. -/
def bodyRequiredIncludes (requiredField : Option Json) (name : String) : Bool :=
  match requiredField with
  | some (Json.arr l) =>
    l.any (fun j => match j with | Json.str s => s = name | _ => false)
  | some (Json.str s) => if s ≠ "" then jsIncludes s name else false
  | _ => false

/-- Loop of generateInputSchema over the flattened body properties: each
property lands in the top level, and its name is required only when the
body schema lists it and the body itself is required. -/
def addBodyProps (bodyRequired : Option Json) (rbRequired : Bool) :
    List (String × Json) →
    List (String × Json) × List String → List (String × Json) × List String
  | [], acc => acc
  | (pn, ps) :: rest, (props, req) =>
    addBodyProps bodyRequired rbRequired rest
      (recordSet props pn ps,
       if bodyRequiredIncludes bodyRequired pn && rbRequired then req ++ [pn]
       else req)

/-- Input schema of a tool: path parameters, then query parameters, then
either the flattened properties of an object-typed body schema with a
truthy properties map, or a single body property carrying the body
schema with its description overridden. -/
def generateInputSchema (endpoint : ParsedEndpoint) : InputSchema :=
  let acc₁ := addParamsToSchema endpoint.pathParams ([], [])
  let acc₂ := addParamsToSchema endpoint.queryParams acc₁
  match endpoint.requestBody with
  | none => { type := "object", properties := acc₂.1, required := acc₂.2 }
  | some rb =>
    let bodySchema := rb.schema
    if (match getField bodySchema "type" with
        | some (Json.str t) => t = "object"
        | _ => false)
       && truthyOpt (getField bodySchema "properties") then
      let bodyProps := jsEntries ((getField bodySchema "properties").getD Json.null)
      let acc₃ := addBodyProps (getField bodySchema "required") rb.required
        bodyProps acc₂
      { type := "object", properties := acc₃.1, required := acc₃.2 }
    else
      let bodyPropSchema := Json.obj (recordSet (jsEntries bodySchema)
        "description"
        (Json.str (match rb.description with
          | some d => if d ≠ "" then d else "Request body"
          | none => "Request body")))
      { type := "object"
        properties := recordSet acc₂.1 "body" bodyPropSchema
        required := if rb.required then acc₂.2 ++ ["body"] else acc₂.2 }

structure GeneratedTool where
  name : String
  description : String
  inputSchema : InputSchema
  endpoint : ParsedEndpoint

def endpointToTool (endpoint : ParsedEndpoint) : GeneratedTool :=
  { name := generateToolName endpoint
    description := generateToolDescription endpoint
    inputSchema := generateInputSchema endpoint
    endpoint := endpoint }

def generateTools (spec : ParsedSpec) : List GeneratedTool :=
  spec.endpoints.map endpointToTool

/-- Map update of groupToolsByTag for one tag: get-or-empty, push, set
(an existing key keeps its position, a new key appends). -/
def groupsAdd (groups : List (String × List GeneratedTool)) (tag : String)
    (tool : GeneratedTool) : List (String × List GeneratedTool) :=
  match groups with
  | [] => [(tag, [tool])]
  | (k, ts) :: rest =>
    if k = tag then (k, ts ++ [tool]) :: rest
    else (k, ts) :: groupsAdd rest tag tool

/-- Inner loop of groupToolsByTag over one tool's effective tag list. -/
def groupsAddAll (tool : GeneratedTool) : List String →
    List (String × List GeneratedTool) → List (String × List GeneratedTool)
  | [], groups => groups
  | tag :: rest, groups => groupsAddAll tool rest (groupsAdd groups tag tool)

/-- Main loop of groupToolsByTag over the tools, threading the map. -/
def groupToolsGo : List GeneratedTool →
    List (String × List GeneratedTool) → List (String × List GeneratedTool)
  | [], groups => groups
  | t :: ts, groups =>
    let tags := if t.endpoint.tags.isEmpty then ["default"] else t.endpoint.tags
    groupToolsGo ts (groupsAddAll t tags groups)

/-- Grouping by tag: a tool with no tags is grouped under the synthetic
default tag, a tool with tags lands in every one of its tag groups. -/
def groupToolsByTag (tools : List GeneratedTool) :
    List (String × List GeneratedTool) :=
  groupToolsGo tools []

structure ToolsSummary where
  total : Nat
  byMethod : List (String × Nat)
  byTag : List (String × Nat)

/-- Counter update byX[key] = (byX[key] or 0) + 1. -/
def countIncr (r : List (String × Nat)) (key : String) : List (String × Nat) :=
  match r with
  | [] => [(key, 1)]
  | (k, n) :: rest =>
    if k = key then (k, n + 1) :: rest else (k, n) :: countIncr rest key

/-- Inner loop of getToolsSummary over one tool's tags. -/
def tagCounts : List String → List (String × Nat) → List (String × Nat)
  | [], acc => acc
  | tag :: rest, acc => tagCounts rest (countIncr acc tag)

/-- Main loop of getToolsSummary: per tool, one increment for its
uppercased method and one increment per tag. -/
def summaryLoop : List GeneratedTool →
    List (String × Nat) × List (String × Nat) →
    List (String × Nat) × List (String × Nat)
  | [], acc => acc
  | t :: ts, (byMethod, byTag) =>
    summaryLoop ts
      (countIncr byMethod (upperStr t.endpoint.method),
       tagCounts t.endpoint.tags byTag)

/-- Summary statistics: total tool count, counts by method, counts by
tag (untagged tools contribute to no tag bucket). -/
def getToolsSummary (tools : List GeneratedTool) : ToolsSummary :=
  let acc := summaryLoop tools ([], [])
  { total := tools.length, byMethod := acc.1, byTag := acc.2 }

/-! ## Full-mode server (src/server/mcp-server.ts)

Invocations arrive with a flat argument mapping; a JavaScript object,
so keys are unique and ordered. -/

/-- Body extraction of the full-mode server: nothing without a declared
request body; a literal body argument verbatim; otherwise the residual
arguments (neither path- nor query-parameter names) as an object, or
nothing when there are none. -/
def extractBody (endpoint : ParsedEndpoint) (args : List (String × Json)) :
    Option Json :=
  match endpoint.requestBody with
  | none => none
  | some _ =>
    match lookupField args "body" with
    | some v => some v
    | none =>
      let pathParamNames := endpoint.pathParams.map (fun p => p.name)
      let queryParamNames := endpoint.queryParams.map (fun p => p.name)
      let bodyArgs := args.filter (fun kv =>
        ¬ pathParamNames.contains kv.1 && ¬ queryParamNames.contains kv.1)
      if bodyArgs.isEmpty then none else some (Json.obj bodyArgs)

/-- The response shape a tool invocation produces at the protocol
boundary: one text content item, optionally flagged as an error. -/
structure ToolCallResult where
  text : String
  isError : Bool

/-- Routing rule of the full-mode call-tool handler.  The outcome of the
outbound HTTP call (already rendered to text: the body verbatim, or the
pretty-printed JSON) is supplied as an oracle, with its error channel
carrying the message of anything executeApiCall threw.  The handler
looks the tool up by exact name; an unknown name throws out of the
handler (the Except error channel), since that throw sits before the
try block; a found tool turns an execution failure into an error-flagged
result and a success into a plain result. -/
def handleToolCall (tools : List GeneratedTool) (toolName : String)
    (apiOutcome : Except String String) : Except String ToolCallResult :=
  match tools.find? (fun t => t.name == toolName) with
  | none => Except.error ("Unknown tool: " ++ toolName)
  | some _ =>
    match apiOutcome with
    | Except.ok text => Except.ok { text := text, isError := false }
    | Except.error message =>
      Except.ok { text := "Error: " ++ message, isError := true }

/-! ## Search-mode server (src/server/search-mode.ts) -/

/-- Body extraction inside the search-mode executeApiCall: always the
residual arguments (neither parameter names nor the endpoint_id key) as
an object when non-empty, with no look at the declared request body and
no special casing of a body key. -/
def searchModeBody (endpoint : ParsedEndpoint) (args : List (String × Json)) :
    Option Json :=
  let pathParamNames := endpoint.pathParams.map (fun p => p.name)
  let queryParamNames := endpoint.queryParams.map (fun p => p.name)
  let bodyArgs := args.filter (fun kv =>
    ¬ pathParamNames.contains kv.1 && ¬ queryParamNames.contains kv.1
      && kv.1 ≠ "endpoint_id")
  if bodyArgs.isEmpty then none else some (Json.obj bodyArgs)

structure SearchOptions where
  tags : Option (List String)
  methods : Option (List String)
  limit : Option Int

/-- Query score of one candidate: over the lowercased fields (name,
description, path, summary-or-empty, operationId and each tag), ten
points for containing the full lowercased query and five more per
whitespace-delimited query word contained. -/
def scoreTool (query : String) (tool : GeneratedTool) : Nat :=
  let queryLower := lowerStr query
  let words := splitWs queryLower
  let fields := ([tool.name, tool.description, tool.endpoint.path,
    tool.endpoint.summary.getD "", tool.endpoint.operationId]
    ++ tool.endpoint.tags).map lowerStr
  fields.foldl (fun score field =>
    score + (if jsIncludes field queryLower then 10 else 0)
      + 5 * (words.countP (fun w => jsIncludes field w))) 0

/-- Optional tag pre-filter: when a non-empty tag list is supplied, keep
the tools whose endpoint tags intersect it, case-insensitively. -/
def tagFilter (tools : List GeneratedTool) (tags : Option (List String)) :
    List GeneratedTool :=
  match tags with
  | some l =>
    if l.isEmpty then tools
    else
      let tagsLower := l.map lowerStr
      tools.filter (fun t =>
        t.endpoint.tags.any (fun tag => tagsLower.contains (lowerStr tag)))
  | none => tools

/-- Optional method pre-filter, case-insensitive. -/
def methodFilter (tools : List GeneratedTool)
    (methods : Option (List String)) : List GeneratedTool :=
  match methods with
  | some l =>
    if l.isEmpty then tools
    else
      let methodsLower := l.map lowerStr
      tools.filter (fun t => methodsLower.contains (lowerStr t.endpoint.method))
  | none => tools

/-- Insertion step of the stable descending sort: an element goes in
front of the first position whose score does not exceed it, so earlier
elements stay ahead of later equal-scored ones. -/
def insertScored (x : GeneratedTool × Nat) :
    List (GeneratedTool × Nat) → List (GeneratedTool × Nat)
  | [] => [x]
  | y :: ys => if y.2 ≤ x.2 then x :: y :: ys else y :: insertScored x ys

/-- The stable sort by descending score.  The source sorts with the
comparator on score difference through the ECMAScript stable
Array.prototype.sort; the stable descending ordering is unique, and
this insertion sort realizes it. -/
def sortScoredDesc : List (GeneratedTool × Nat) → List (GeneratedTool × Nat)
  | [] => []
  | x :: xs => insertScored x (sortScoredDesc xs)

/-- JavaScript list.slice(0, end): a negative end counts back from the
length. -/
def jsSliceTo {α : Type} (l : List α) (limit : Int) : List α :=
  if limit < 0 then l.take ((l.length + limit).toNat) else l.take limit.toNat

/-- Effective result limit, options?.limit || 10: an absent limit and
the falsy limit zero both fall back to ten. -/
def jsLimit : Option Int → Int
  | some n => if n = 0 then 10 else n
  | none => 10

/-- Ranking pipeline of search_endpoints before the final projection:
pre-filter by tags and methods, score against the query, drop zero
scores, stable-sort descending, truncate to the effective limit. -/
def rankEndpoints (tools : List GeneratedTool) (query : String)
    (opts : SearchOptions) : List (GeneratedTool × Nat) :=
  let filtered := methodFilter (tagFilter tools opts.tags) opts.methods
  let scored := filtered.map (fun t => (t, scoreTool query t))
  jsSliceTo (sortScoredDesc (scored.filter (fun s => decide (0 < s.2))))
    (jsLimit opts.limit)

/-- The ranked tools search_endpoints returns. -/
def searchEndpoints (tools : List GeneratedTool) (query : String)
    (opts : SearchOptions) : List GeneratedTool :=
  (rankEndpoints tools query opts).map (fun s => s.1)

/-! ## Authentication (src/auth/handlers.ts) -/

structure AuthConfig where
  type : String
  token : Option String
  headerName : Option String
  username : Option String
  password : Option String
  clientId : Option String
  clientSecret : Option String
  tokenUrl : Option String

/-- Outcome of the one outbound token-exchange request, supplied as an
oracle: the fetch promise rejected, or a response arrived with its ok
flag, status text and the outcome of parsing its JSON body. -/
inductive FetchOutcome where
  | networkError (message : String)
  | response (ok : Bool) (statusText : String) (body : Except String Json)

/-- What getOAuth2Token resolves to: the null of every failure path, or
the access_token field of the parsed response (absent when the parsed
object lacks it). -/
inductive TokenResult where
  | nullToken
  | token (accessToken : Option Json)

/-- Falsiness of an optional string config field: absent or empty. -/
def strOptFalsy : Option String → Bool
  | none => true
  | some s => s = ""

/-- OAuth2 client-credentials exchange.  Missing or empty token URL,
client id or client secret (or a non-oauth2 type) resolve to null
before any request; a rejected fetch, a non-ok status (thrown as an
OAuth2 failure inside the try) and a JSON parse failure are all caught,
logged and resolved to null; only a parsed ok response yields its
access_token.  The Except error channel models an exception escaping to
the caller, which no path uses. -/
def getOAuth2Token (auth : AuthConfig) (exchange : FetchOutcome) :
    Except String TokenResult :=
  if auth.type != "oauth2" || strOptFalsy auth.tokenUrl
      || strOptFalsy auth.clientId || strOptFalsy auth.clientSecret then
    Except.ok TokenResult.nullToken
  else
    match exchange with
    | FetchOutcome.networkError _ => Except.ok TokenResult.nullToken
    | FetchOutcome.response ok _ body =>
      if ¬ok then Except.ok TokenResult.nullToken
      else
        match body with
        | Except.error _ => Except.ok TokenResult.nullToken
        | Except.ok data =>
          Except.ok (TokenResult.token (getField data "access_token"))

/-! ## Concrete fixtures

Petstore-shaped sample endpoints used by the scenario theorems and
witnesses below. -/

def petEndpoint : ParsedEndpoint :=
  { operationId := "getPetById"
    method := "get"
    path := "/pet/{petId}"
    summary := some "Find pet by ID"
    description := none
    pathParams := [{ name := "petId", required := true
                     description := some "ID of pet to return"
                     type := "number", format := some "int64"
                     enum := none, default := none }]
    queryParams := []
    headerParams := []
    requestBody := none
    responses := []
    tags := ["pet"]
    security := [] }

def storeEndpoint : ParsedEndpoint :=
  { operationId := "getStoreInventory"
    method := "get"
    path := "/store/inventory"
    summary := some "Returns pet inventories by status"
    description := none
    pathParams := []
    queryParams := []
    headerParams := []
    requestBody := none
    responses := []
    tags := ["store"]
    security := [] }

/-- A petstore-like object request body: two properties, one listed as
required by the body schema. -/
def petBody : RequestBodyInfo :=
  { required := true
    description := none
    contentType := "application/json"
    schema := Json.obj
      [("type", Json.str "object"),
       ("properties", Json.obj
         [("name", Json.obj [("type", Json.str "string")]),
          ("status", Json.obj [("type", Json.str "string")])]),
       ("required", Json.arr [Json.str "name"])] }

def bodyEndpoint : ParsedEndpoint :=
  { petEndpoint with requestBody := some petBody }

def petTool : GeneratedTool := endpointToTool petEndpoint

def storeTool : GeneratedTool := endpointToTool storeEndpoint

/-- A dereferenced document carrying neither version discriminant. -/
def mysteryDoc : Json :=
  Json.obj
    [("info", Json.obj
       [("title", Json.str "Mystery API"), ("version", Json.str "1.0")]),
     ("paths", Json.obj [])]

/-! ## Theorems -/

/-- C2: evaluation of the synthesized operation identifier at the
failing input.  The source lowercases the tail of every non-initial
word, so method get with path /pets/{petId} yields getPetsPetid and
not the getPetsPetId stated by the specification and by the example in
the doc comment of the source generateOperationId (which promises
getPetsPetIdPhotos for /pets/{petId}/photos). -/
theorem generateOperationId_lowercases_word_tails :
    generateOperationId "get" "/pets/{petId}" = "getPetsPetid"
    ∧ generateOperationId "get" "/pets/{petId}/photos" = "getPetsPetidPhotos"
    ∧ generateOperationId "get" "/pets/{petId}" ≠ "getPetsPetId" := by
  refine ⟨by decide, by decide, by decide⟩

/-- C1 counterexample: a Full-mode invocation naming a tool absent from
the generated list does not return an error-flagged result; the handler
throws, so the failure leaves the handler as a protocol-level fault. -/
theorem handleToolCall_unknown_counterexample :
    handleToolCall [petTool] "nope" (Except.ok "irrelevant")
      = Except.error "Unknown tool: nope" := by
  rfl

/-- C1 amended: for every invocation naming a tool that does not exist
in the generated tool list, the Full-mode handler throws an
unknown-tool error carrying the name (escaping to the protocol layer),
rather than returning an error-flagged result; the catch block wraps
only failures of the API call itself. -/
theorem handleToolCall_unknown_throws (tools : List GeneratedTool)
    (toolName : String) (outcome : Except String String)
    (h : ∀ t ∈ tools, t.name ≠ toolName) :
    handleToolCall tools toolName outcome
      = Except.error ("Unknown tool: " ++ toolName) := by
  unfold handleToolCall
  have hfind : tools.find? (fun t => t.name == toolName) = none := by
    rw [List.find?_eq_none]
    intro t ht
    simpa using h t ht
  rw [hfind]

/-- C1 witness: the amended statement at a concrete tool list and
unknown name. -/
theorem handleToolCall_unknown_throws_witness :
    handleToolCall [petTool] "missing_tool" (Except.ok "body")
      = Except.error ("Unknown tool: " ++ "missing_tool") :=
  handleToolCall_unknown_throws [petTool] "missing_tool" (Except.ok "body")
    (by decide)

/-- C3 counterexample: a dereferenced document matching neither version
discriminant is not rejected — no SpecFormatError exists in the source;
parseSpec yields a parsed spec through the non-v3 branch with the
base URL fallback. -/
theorem parseSpec_unknown_shape_counterexample :
    parseSpec mysteryDoc
      = Except.ok { title := "Mystery API", version := "1.0"
                    description := none, baseUrl := "http://localhost"
                    endpoints := [] }
    ∧ isOpenAPIV3 mysteryDoc = false ∧ isSwagger2 mysteryDoc = false :=
  ⟨rfl, rfl, rfl⟩

/-- A document whose info field is null: reading its title throws. -/
def nullInfoDoc : Json := Json.obj [("info", Json.null)]

/-! Every failure the parser can produce is a TypeError of the source:
one lemma per fallible function, threaded through the loops. -/

/-- Whether an abort message is one of the TypeErrors of the source. -/
def isTypeErrorMsg (msg : String) : Bool :=
  "TypeError".toList.isPrefixOf msg.toList

theorem spreadIterable_error (v : Json) (msg : String)
    (h : spreadIterable v = Except.error msg) :
    isTypeErrorMsg msg = true := by
  cases v <;> simp [spreadIterable] at h <;> (subst h; decide)

theorem jsObjectKeys_error (v : Json) (msg : String)
    (h : jsObjectKeys v = Except.error msg) :
    isTypeErrorMsg msg = true := by
  cases v <;> simp [jsObjectKeys] at h
  subst h
  decide

theorem securityKeys_error :
    ∀ (secs : List Json) (msg : String),
      securityKeys secs = Except.error msg →
      isTypeErrorMsg msg = true
  | [], msg, h => by simp [securityKeys] at h
  | sec :: rest, msg, h => by
    simp only [securityKeys] at h
    split at h
    · next m heq =>
      injection h with hm
      subst hm
      exact jsObjectKeys_error sec m heq
    · split at h
      · next m heq =>
        injection h with hm
        subst hm
        exact securityKeys_error rest m heq
      · simp at h

theorem parseRequestBody_error (requestBody : Option Json) (msg : String)
    (h : parseRequestBody requestBody = Except.error msg) :
    isTypeErrorMsg msg = true := by
  cases requestBody with
  | none => simp [parseRequestBody] at h
  | some rb =>
    simp only [parseRequestBody] at h
    split at h
    · split at h
      · injection h with hm
        subst hm
        decide
      · injection h with hm
        subst hm
        decide
      · simp at h
    · simp at h

theorem parseOperation_error (method path : String)
    (operation pathParams : Json) (isV3 : Bool) (msg : String)
    (h : parseOperation method path operation pathParams isV3
      = Except.error msg) :
    isTypeErrorMsg msg = true := by
  simp only [parseOperation] at h
  split at h
  · next m heq =>
    injection h with hm
    subst hm
    exact spreadIterable_error _ _ heq
  · split at h
    · next m heq =>
      injection h with hm
      subst hm
      exact spreadIterable_error _ _ heq
    · split at h
      · injection h with hm
        subst hm
        decide
      · split at h
        · next m heq =>
          injection h with hm
          subst hm
          split at heq
          · exact parseRequestBody_error _ _ heq
          · simp at heq
        · split at h
          · next m heq =>
            injection h with hm
            subst hm
            split at heq
            · split at heq
              · split at heq
                · next m2 heq2 =>
                  injection heq with hm2
                  subst hm2
                  exact spreadIterable_error _ _ heq2
                · exact securityKeys_error _ _ heq
              · simp at heq
            · simp at heq
          · simp at h

theorem parseMethods_error (path : String) (pathItem pathParams : Json)
    (isV3 : Bool) :
    ∀ (ms : List String) (msg : String),
      parseMethods path pathItem pathParams isV3 ms = Except.error msg →
      isTypeErrorMsg msg = true
  | [], msg, h => by simp [parseMethods] at h
  | m :: ms, msg, h => by
    simp only [parseMethods] at h
    split at h
    · next m' heq =>
      injection h with hm
      subst hm
      split at heq
      · split at heq
        · split at heq
          · next m2 heq2 =>
            injection heq with hm2
            subst hm2
            exact parseOperation_error _ _ _ _ _ _ heq2
          · simp at heq
        · simp at heq
      · simp at heq
    · split at h
      · next m' heq =>
        injection h with hm
        subst hm
        exact parseMethods_error path pathItem pathParams isV3 ms m' heq
      · simp at h

theorem parsePathEntries_error (isV3 : Bool) :
    ∀ (entries : List (String × Json)) (msg : String),
      parsePathEntries isV3 entries = Except.error msg →
      isTypeErrorMsg msg = true
  | [], msg, h => by simp [parsePathEntries] at h
  | (path, pathItem) :: rest, msg, h => by
    simp only [parsePathEntries] at h
    split at h
    · next m heq =>
      injection h with hm
      subst hm
      split at heq
      · exact parseMethods_error _ _ _ _ _ _ heq
      · simp at heq
    · split at h
      · next m heq =>
        injection h with hm
        subst hm
        exact parsePathEntries_error isV3 rest m heq
      · simp at h

theorem parseSpec_ok_baseUrl (api : Json) (spec : ParsedSpec)
    (h : parseSpec api = Except.ok spec) :
    spec.baseUrl = extractBaseUrl api := by
  simp only [parseSpec] at h
  split at h
  · simp at h
  · split at h
    · simp at h
    · simp at h
    · injection h with hs
      subst hs
      rfl

theorem parseSpec_error_typeError (api : Json) (msg : String)
    (h : parseSpec api = Except.error msg) :
    isTypeErrorMsg msg = true := by
  simp only [parseSpec] at h
  split at h
  · next m heq =>
    injection h with hm
    subst hm
    exact parsePathEntries_error _ _ _ heq
  · split at h
    · injection h with hm
      subst hm
      decide
    · injection h with hm
      subst hm
      decide
    · simp at h

/-- C3 amended: a document matching neither version discriminant is
never rejected for its shape — no SpecFormatError exists in the source.
Whenever spec loading completes, the parsed spec carries the fallback
base URL http://localhost, the document having been treated as non-v3;
and the only aborts spec loading can produce are the TypeErrors of
malformed structures (non-iterable parameters, a null parameter or
security entry, a missing or null info object), failures that do not
depend on the discriminant. -/
theorem parseSpec_unknown_shape_defaults (doc : Json)
    (h3 : isOpenAPIV3 doc = false) (h2 : isSwagger2 doc = false) :
    (∀ spec, parseSpec doc = Except.ok spec →
      spec.baseUrl = "http://localhost")
    ∧ (∀ msg, parseSpec doc = Except.error msg →
        isTypeErrorMsg msg = true) := by
  constructor
  · intro spec h
    rw [parseSpec_ok_baseUrl doc spec h]
    simp [extractBaseUrl, h3, h2]
  · intro msg h
    exact parseSpec_error_typeError doc msg h

/-- C3 witness: the amended statement at the concrete unrecognized
document that parses, and at the concrete document whose null info
aborts with a TypeError. -/
theorem parseSpec_unknown_shape_defaults_witness :
    ({ title := "Mystery API", version := "1.0", description := none
       baseUrl := "http://localhost"
       endpoints := [] } : ParsedSpec).baseUrl = "http://localhost"
    ∧ isTypeErrorMsg "TypeError: cannot read properties of null" = true :=
  ⟨(parseSpec_unknown_shape_defaults mysteryDoc (by decide) (by decide)).1
     _ rfl,
   (parseSpec_unknown_shape_defaults nullInfoDoc (by decide) (by decide)).2
     _ rfl⟩

/-- C4 counterexample: the search-mode dispatch assembles a body for an
endpoint that declares no request body (petEndpoint has none, and the
residual argument x becomes the body), and an argument literally named
body is collected into the residual object rather than used as the body
as-is. -/
theorem searchModeBody_counterexample :
    petEndpoint.requestBody = none
    ∧ searchModeBody petEndpoint [("x", Json.num 1)]
        = some (Json.obj [("x", Json.num 1)])
    ∧ searchModeBody bodyEndpoint [("body", Json.num 5)]
        = some (Json.obj [("body", Json.num 5)]) :=
  ⟨rfl, rfl, rfl⟩

/-- C4 amended: the two dispatch modes differ.  Full mode assembles a
body only when the endpoint declares a request body and uses a literal
body argument as-is; search mode applies residual collection
unconditionally — its body extraction never reads the declared request
body (the result is invariant under changing it), so a body can be
assembled for an endpoint without one, and a body key is collected like
any other residual argument. -/
theorem bodyExtraction_modes (e : ParsedEndpoint)
    (args : List (String × Json)) :
    (e.requestBody = none → extractBody e args = none)
    ∧ (∀ v, e.requestBody.isSome = true → lookupField args "body" = some v →
        extractBody e args = some v)
    ∧ (∀ rb, searchModeBody { e with requestBody := rb } args
        = searchModeBody e args) := by
  refine ⟨?_, ?_, ?_⟩
  · intro h
    simp [extractBody, h]
  · intro v hsome hbody
    cases hrb : e.requestBody with
    | none => rw [hrb] at hsome; simp at hsome
    | some rb => simp [extractBody, hrb, hbody]
  · intro rb
    simp [searchModeBody]

/-- C4 witness: the amended statement at concrete endpoints and
arguments. -/
theorem bodyExtraction_modes_witness :
    extractBody petEndpoint [("x", Json.num 1)] = none
    ∧ extractBody bodyEndpoint [("body", Json.num 5)] = some (Json.num 5)
    ∧ searchModeBody { petEndpoint with requestBody := some petBody }
        [("x", Json.num 1)]
      = searchModeBody petEndpoint [("x", Json.num 1)] :=
  ⟨(bodyExtraction_modes petEndpoint [("x", Json.num 1)]).1 rfl,
   (bodyExtraction_modes bodyEndpoint [("body", Json.num 5)]).2.1
     (Json.num 5) rfl rfl,
   (bodyExtraction_modes petEndpoint [("x", Json.num 1)]).2.2
     (some petBody)⟩

/-- An oauth2 configuration with every required field present. -/
def oauthAuth : AuthConfig :=
  { type := "oauth2", token := none, headerName := none, username := none
    password := none, clientId := some "id", clientSecret := some "secret"
    tokenUrl := some "https://auth.example/token" }

/-- A parsed token-endpoint response. -/
def tokenJson : Json :=
  Json.obj [("access_token", Json.str "abc"),
            ("token_type", Json.str "bearer")]

/-- C8: getOAuth2Token resolves to null when the token URL, client id
or client secret is missing (absent or empty), and on every failing
exchange — rejected fetch, non-success status, JSON parse failure — the
failure is swallowed into null rather than propagated; a parsed
successful exchange yields the access_token field; and no input makes
the function throw to the caller. -/
theorem getOAuth2Token_spec (auth : AuthConfig) (exchange : FetchOutcome) :
    ((strOptFalsy auth.tokenUrl || strOptFalsy auth.clientId
        || strOptFalsy auth.clientSecret) = true →
      getOAuth2Token auth exchange = Except.ok TokenResult.nullToken)
    ∧ (∀ msg, exchange = FetchOutcome.networkError msg →
        getOAuth2Token auth exchange = Except.ok TokenResult.nullToken)
    ∧ (∀ st body, exchange = FetchOutcome.response false st body →
        getOAuth2Token auth exchange = Except.ok TokenResult.nullToken)
    ∧ (∀ st err, exchange = FetchOutcome.response true st (Except.error err) →
        getOAuth2Token auth exchange = Except.ok TokenResult.nullToken)
    ∧ (∀ st data, exchange = FetchOutcome.response true st (Except.ok data) →
        auth.type = "oauth2" → strOptFalsy auth.tokenUrl = false →
        strOptFalsy auth.clientId = false →
        strOptFalsy auth.clientSecret = false →
        getOAuth2Token auth exchange
          = Except.ok (TokenResult.token (getField data "access_token")))
    ∧ (getOAuth2Token auth exchange).toOption.isSome = true := by
  refine ⟨?_, ?_, ?_, ?_, ?_, ?_⟩
  · intro h
    rw [Bool.or_eq_true, Bool.or_eq_true] at h
    rcases h with (h | h) | h <;> simp [getOAuth2Token, h]
  · intro msg heq
    subst heq
    cases h : (auth.type != "oauth2" || strOptFalsy auth.tokenUrl
        || strOptFalsy auth.clientId || strOptFalsy auth.clientSecret) <;>
      simp [getOAuth2Token, h]
  · intro st body heq
    subst heq
    cases h : (auth.type != "oauth2" || strOptFalsy auth.tokenUrl
        || strOptFalsy auth.clientId || strOptFalsy auth.clientSecret) <;>
      simp [getOAuth2Token, h]
  · intro st err heq
    subst heq
    cases h : (auth.type != "oauth2" || strOptFalsy auth.tokenUrl
        || strOptFalsy auth.clientId || strOptFalsy auth.clientSecret) <;>
      simp [getOAuth2Token, h]
  · intro st data heq ht hurl hid hsec
    subst heq
    have hcond : (auth.type != "oauth2" || strOptFalsy auth.tokenUrl
        || strOptFalsy auth.clientId || strOptFalsy auth.clientSecret)
          = false := by
      simp [ht, hurl, hid, hsec]
    simp [getOAuth2Token, hcond]
  · cases h : (auth.type != "oauth2" || strOptFalsy auth.tokenUrl
        || strOptFalsy auth.clientId || strOptFalsy auth.clientSecret)
    · cases exchange with
      | networkError m => simp [getOAuth2Token, h, Except.toOption]
      | response ok st body =>
        cases ok <;> cases body <;> simp [getOAuth2Token, h, Except.toOption]
    · simp [getOAuth2Token, h, Except.toOption]

/-- C8 witness: the statement at concrete configurations — a missing
client secret, a non-success status, and a successful exchange. -/
theorem getOAuth2Token_spec_witness :
    getOAuth2Token { oauthAuth with clientSecret := none }
        (FetchOutcome.networkError "down")
      = Except.ok TokenResult.nullToken
    ∧ getOAuth2Token oauthAuth
        (FetchOutcome.response false "Bad Gateway" (Except.ok (Json.obj [])))
      = Except.ok TokenResult.nullToken
    ∧ getOAuth2Token oauthAuth
        (FetchOutcome.response true "OK" (Except.ok tokenJson))
      = Except.ok (TokenResult.token (getField tokenJson "access_token")) :=
  ⟨(getOAuth2Token_spec { oauthAuth with clientSecret := none }
      (FetchOutcome.networkError "down")).1 (by decide),
   (getOAuth2Token_spec oauthAuth
      (FetchOutcome.response false "Bad Gateway"
        (Except.ok (Json.obj [])))).2.2.1 "Bad Gateway"
     (Except.ok (Json.obj [])) rfl,
   (getOAuth2Token_spec oauthAuth
      (FetchOutcome.response true "OK" (Except.ok tokenJson))).2.2.2.2.1
     "OK" tokenJson rfl rfl (by decide) (by decide) (by decide)⟩

/-! Helper lemmas about the stable descending sort of the ranking. -/

theorem insertScored_length (x : GeneratedTool × Nat)
    (l : List (GeneratedTool × Nat)) :
    (insertScored x l).length = l.length + 1 := by
  induction l with
  | nil => rfl
  | cons y ys ih =>
    simp only [insertScored]
    split <;> simp [ih]

theorem sortScoredDesc_length (l : List (GeneratedTool × Nat)) :
    (sortScoredDesc l).length = l.length := by
  induction l with
  | nil => rfl
  | cons x xs ih => simp [sortScoredDesc, insertScored_length, ih]

theorem mem_insertScored (x y : GeneratedTool × Nat)
    (l : List (GeneratedTool × Nat)) :
    y ∈ insertScored x l ↔ y = x ∨ y ∈ l := by
  induction l with
  | nil => simp [insertScored]
  | cons z zs ih =>
    simp only [insertScored]
    split
    · simp
    · simp only [List.mem_cons, ih]
      tauto

theorem mem_sortScoredDesc (y : GeneratedTool × Nat)
    (l : List (GeneratedTool × Nat)) :
    y ∈ sortScoredDesc l ↔ y ∈ l := by
  induction l with
  | nil => simp [sortScoredDesc]
  | cons x xs ih =>
    simp [sortScoredDesc, mem_insertScored, ih]

theorem jsSliceTo_nonneg {α : Type} (l : List α) (k : Int) (h : 0 ≤ k) :
    jsSliceTo l k = l.take k.toNat := by
  simp [jsSliceTo, not_lt.mpr h]

theorem rankEndpoints_length_le (tools : List GeneratedTool)
    (query : String) (opts : SearchOptions) (h : 0 ≤ jsLimit opts.limit) :
    (rankEndpoints tools query opts).length ≤ (jsLimit opts.limit).toNat := by
  simp only [rankEndpoints, jsSliceTo_nonneg _ _ h, List.length_take]
  exact Nat.min_le_left _ _

theorem rankEndpoints_ne_nil (tools : List GeneratedTool) (query : String)
    (opts : SearchOptions) (h : 0 < jsLimit opts.limit)
    (t : GeneratedTool)
    (ht : t ∈ methodFilter (tagFilter tools opts.tags) opts.methods)
    (hs : 0 < scoreTool query t) :
    rankEndpoints tools query opts ≠ [] := by
  intro hempty
  have h0 : (rankEndpoints tools query opts).length = 0 := by rw [hempty]; rfl
  have hmem : (t, scoreTool query t) ∈
      ((methodFilter (tagFilter tools opts.tags) opts.methods).map
        (fun t => (t, scoreTool query t))).filter
          (fun s => decide (0 < s.2)) := by
    refine List.mem_filter.mpr ⟨List.mem_map_of_mem _ ht, ?_⟩
    simpa using hs
  have hpos := List.length_pos_of_mem hmem
  simp only [rankEndpoints, jsSliceTo_nonneg _ _ (le_of_lt h),
    List.length_take, sortScoredDesc_length] at h0
  omega

/-- C9: a supplied limit of zero is falsy, so the ranking falls back to
the default limit of ten, exactly as when no limit is supplied: the
results coincide, at most ten come back, and any candidate surviving
the filters with a positive score forces a non-empty result — a caller
cannot request zero results. -/
theorem searchEndpoints_zero_limit (tools : List GeneratedTool)
    (query : String) (tags methods : Option (List String)) :
    searchEndpoints tools query ⟨tags, methods, some 0⟩
      = searchEndpoints tools query ⟨tags, methods, none⟩
    ∧ (searchEndpoints tools query ⟨tags, methods, some 0⟩).length ≤ 10
    ∧ (∀ t ∈ methodFilter (tagFilter tools tags) methods,
        0 < scoreTool query t →
        searchEndpoints tools query ⟨tags, methods, some 0⟩ ≠ []) := by
  have hlim : jsLimit (some 0) = jsLimit none := by decide
  have heq : searchEndpoints tools query ⟨tags, methods, some 0⟩
      = searchEndpoints tools query ⟨tags, methods, none⟩ := by
    simp [searchEndpoints, rankEndpoints, hlim]
  refine ⟨heq, ?_, ?_⟩
  · have hle := rankEndpoints_length_le tools query ⟨tags, methods, some 0⟩
      (show (0:Int) ≤ jsLimit (some 0) by decide)
    simp only [searchEndpoints, List.length_map]
    exact le_trans hle (show (jsLimit (some 0)).toNat ≤ 10 by decide)
  · intro t ht hscore hempty
    have hne := rankEndpoints_ne_nil tools query ⟨tags, methods, some 0⟩
      (show (0:Int) < jsLimit (some 0) by decide) t ht hscore
    rw [searchEndpoints, List.map_eq_nil_iff] at hempty
    exact hne hempty

/-- C9 witness: the statement at a concrete tool list and query. -/
theorem searchEndpoints_zero_limit_witness :
    searchEndpoints [petTool, storeTool] "pet" ⟨none, none, some 0⟩
      = searchEndpoints [petTool, storeTool] "pet" ⟨none, none, none⟩
    ∧ (searchEndpoints [petTool, storeTool] "pet"
        ⟨none, none, some 0⟩).length ≤ 10
    ∧ searchEndpoints [petTool, storeTool] "pet" ⟨none, none, some 0⟩
        ≠ [] :=
  ⟨(searchEndpoints_zero_limit [petTool, storeTool] "pet" none none).1,
   (searchEndpoints_zero_limit [petTool, storeTool] "pet" none none).2.1,
   (searchEndpoints_zero_limit [petTool, storeTool] "pet" none none).2.2
     petTool (List.Mem.head _) (by decide)⟩

/-! Helper lemmas for the tool-name pattern property. -/

theorem toNat_ofNat_of_valid (n : Nat) (h : n < 55296) :
    (Char.ofNat n).toNat = n := by
  rw [Char.ofNat, dif_pos (Or.inl h)]
  rfl

/-- The character class of the tail positions of ^[a-z][a-z0-9_]*$. -/
def isSnakeChar (c : Char) : Bool :=
  isAsciiLower c || isAsciiDigit c || c = '_'

/-- Whether a string matches ^[a-z][a-z0-9_]*$. -/
def matchesToolNamePattern (s : String) : Bool :=
  match s.toList with
  | [] => false
  | c :: rest => isAsciiLower c && rest.all isSnakeChar

theorem sanitizeChar_good (c : Char) :
    (isAsciiAlnum (sanitizeChar c) || sanitizeChar c = '_') = true := by
  unfold sanitizeChar
  split
  · next h => simpa using h
  · simp

theorem lowerChar_good (c : Char)
    (h : (isAsciiAlnum c || c = '_') = true) :
    isSnakeChar (lowerChar c) = true := by
  by_cases hu : isAsciiUpper c = true
  · have hb : 65 ≤ c.toNat ∧ c.toNat ≤ 90 := by
      simpa [isAsciiUpper] using hu
    rw [lowerChar, if_pos hu]
    have ht : (Char.ofNat (c.toNat + 32)).toNat = c.toNat + 32 :=
      toNat_ofNat_of_valid _ (by omega)
    simp [isSnakeChar, isAsciiLower, ht]
    omega
  · rw [lowerChar, if_neg hu]
    simp only [isAsciiAlnum, isAsciiAlpha, Bool.or_eq_true] at h
    rcases h with ((hl | hup) | hd) | hus
    · simp [isSnakeChar, hl]
    · exact absurd hup hu
    · simp [isSnakeChar, hd]
    · simp [isSnakeChar, hus]

theorem lowerChar_alpha_lower (c : Char) (h : isAsciiAlpha c = true) :
    isAsciiLower (lowerChar c) = true := by
  by_cases hu : isAsciiUpper c = true
  · have hb : 65 ≤ c.toNat ∧ c.toNat ≤ 90 := by
      simpa [isAsciiUpper] using hu
    rw [lowerChar, if_pos hu]
    have ht : (Char.ofNat (c.toNat + 32)).toNat = c.toNat + 32 :=
      toNat_ofNat_of_valid _ (by omega)
    simp [isAsciiLower, ht]
    omega
  · rw [lowerChar, if_neg hu]
    simp only [isAsciiAlpha, Bool.or_eq_true] at h
    rcases h with hl | hup
    · exact hl
    · exact absurd hup hu

theorem camelSnake_head (a : Char) (l : List Char) :
    ∃ t, camelSnake (a :: l) = a :: t := by
  cases l with
  | nil => exact ⟨[], rfl⟩
  | cons b rest =>
    unfold camelSnake
    split
    · exact ⟨_, rfl⟩
    · exact ⟨_, rfl⟩

/-- C6: for every endpoint whose operationId is non-empty and starts
with an ASCII letter, the generated tool name matches
^[a-z][a-z0-9_]*$; and the name is deterministic — it depends only on
the operationId. -/
theorem generateToolName_pattern (e : ParsedEndpoint) (c : Char)
    (cs : List Char) (hl : e.operationId.toList = c :: cs)
    (hc : isAsciiAlpha c = true) :
    matchesToolNamePattern (generateToolName e) = true
    ∧ (∀ e₂ : ParsedEndpoint, e₂.operationId = e.operationId →
        generateToolName e₂ = generateToolName e) := by
  constructor
  · obtain ⟨t, hcs⟩ := camelSnake_head c cs
    have hsc : sanitizeChar c = c := by
      unfold sanitizeChar
      rw [if_pos]
      simp [isAsciiAlnum, hc]
    unfold generateToolName matchesToolNamePattern
    rw [hl, hcs]
    simp only [List.map_cons]
    rw [hsc]
    have hred : ((lowerChar c :: (t.map sanitizeChar).map lowerChar).asString).toList
        = lowerChar c :: (t.map sanitizeChar).map lowerChar := rfl
    rw [hred]
    simp only [Bool.and_eq_true]
    refine ⟨lowerChar_alpha_lower c hc, ?_⟩
    rw [List.all_eq_true]
    intro x hx
    rw [List.mem_map] at hx
    obtain ⟨y, hy, hyx⟩ := hx
    rw [List.mem_map] at hy
    obtain ⟨z, _, hzy⟩ := hy
    subst hyx
    subst hzy
    exact lowerChar_good _ (sanitizeChar_good z)
  · intro e₂ he
    unfold generateToolName
    rw [he]

/-- C6 witness: the pattern property at the concrete pet endpoint. -/
theorem generateToolName_pattern_witness :
    matchesToolNamePattern (generateToolName petEndpoint) = true :=
  (generateToolName_pattern petEndpoint 'g' "etPetById".toList (by decide)
    (by decide)).1

/-! Helper lemmas for the ranking order and stability. -/

/-- Scores weakly decreasing along a scored list. -/
def sortedDescBool : List (GeneratedTool × Nat) → Bool
  | [] => true
  | [_] => true
  | x :: y :: rest => y.2 ≤ x.2 && sortedDescBool (y :: rest)

theorem insertScored_sorted (x : GeneratedTool × Nat) :
    ∀ l, sortedDescBool l = true → sortedDescBool (insertScored x l) = true
  | [], _ => rfl
  | [y], h => by
    unfold insertScored
    split
    · next hle => simp [sortedDescBool, hle]
    · next hgt =>
      simp [insertScored, sortedDescBool]
      omega
  | y :: z :: rest, h => by
    have hz : z.2 ≤ y.2 ∧ sortedDescBool (z :: rest) = true := by
      simpa [sortedDescBool] using h
    unfold insertScored
    split
    · next hle =>
      simp [sortedDescBool, hle]
      exact hz
    · next hgt =>
      have ih := insertScored_sorted x (z :: rest) hz.2
      by_cases hzx : z.2 ≤ x.2
      · rw [insertScored, if_pos hzx] at ih ⊢
        simp only [sortedDescBool, Bool.and_eq_true] at ih ⊢
        refine ⟨?_, ih⟩
        simp only [decide_eq_true_eq]
        omega
      · rw [insertScored, if_neg hzx] at ih ⊢
        simp [sortedDescBool, hz.1, ih]

theorem sortScoredDesc_sorted (l : List (GeneratedTool × Nat)) :
    sortedDescBool (sortScoredDesc l) = true := by
  induction l with
  | nil => rfl
  | cons x xs ih => exact insertScored_sorted x _ ih

theorem sortedDescBool_take :
    ∀ (n : Nat) (l : List (GeneratedTool × Nat)),
      sortedDescBool l = true → sortedDescBool (l.take n) = true
  | 0, l, _ => rfl
  | _ + 1, [], _ => rfl
  | n + 1, [x], _ => by cases n <;> rfl
  | n + 1, x :: y :: rest, h => by
    have h' : y.2 ≤ x.2 ∧ sortedDescBool (y :: rest) = true := by
      simpa [sortedDescBool] using h
    cases n with
    | zero => rfl
    | succ m =>
      have ih := sortedDescBool_take (m + 1) (y :: rest) h'.2
      simp only [List.take] at ih ⊢
      simp [sortedDescBool, h'.1]
      simpa [sortedDescBool] using ih

theorem filter_insertScored (x : GeneratedTool × Nat)
    (l : List (GeneratedTool × Nat)) (s : Nat) :
    (insertScored x l).filter (fun p => p.2 == s)
      = if x.2 == s then x :: l.filter (fun p => p.2 == s)
        else l.filter (fun p => p.2 == s) := by
  induction l with
  | nil =>
    by_cases hxs : (x.2 == s) = true <;>
      simp [insertScored, List.filter, hxs]
  | cons y ys ih =>
    unfold insertScored
    split
    · next hle =>
      by_cases hxs : (x.2 == s) = true <;>
        simp [List.filter_cons, hxs]
    · next hgt =>
      by_cases hxs : (x.2 == s) = true
      · have hxval : x.2 = s := by simpa using hxs
        have hy : (y.2 == s) = false := by
          simp only [decide_eq_true_eq, not_le] at hgt
          simp only [beq_eq_false_iff_ne, ne_eq]
          omega
        simp [List.filter_cons, hy, ih, hxs]
      · simp only [Bool.not_eq_true] at hxs
        by_cases hys : (y.2 == s) = true <;>
          simp [List.filter_cons, hys, ih, hxs]

theorem filter_sortScoredDesc (l : List (GeneratedTool × Nat)) (s : Nat) :
    (sortScoredDesc l).filter (fun p => p.2 == s)
      = l.filter (fun p => p.2 == s) := by
  induction l with
  | nil => rfl
  | cons x xs ih =>
    rw [sortScoredDesc, filter_insertScored, ih]
    by_cases hxs : (x.2 == s) = true <;> simp [List.filter_cons, hxs]

theorem rankEndpoints_mem (tools : List GeneratedTool) (query : String)
    (opts : SearchOptions) (p : GeneratedTool × Nat)
    (hp : p ∈ rankEndpoints tools query opts) :
    0 < p.2 ∧ p.2 = scoreTool query p.1 := by
  have hp' : p ∈ sortScoredDesc
      (((methodFilter (tagFilter tools opts.tags) opts.methods).map
        (fun t => (t, scoreTool query t))).filter
          (fun s => decide (0 < s.2))) := by
    simp only [rankEndpoints, jsSliceTo] at hp
    split at hp <;> exact List.mem_of_mem_take hp
  rw [mem_sortScoredDesc] at hp'
  obtain ⟨hmem, hsc⟩ := List.mem_filter.mp hp'
  refine ⟨by simpa using hsc, ?_⟩
  rw [List.mem_map] at hmem
  obtain ⟨t, _, rfl⟩ := hmem
  rfl

/-- C7: ranking behavior of search_endpoints.  Every returned candidate
carries a positive score equal to the scoring rule applied to it (ten
per field containing the whole lowercased query, five per contained
query word, summed over name, description, path, summary-or-empty,
operationId and tags); scores are weakly decreasing along the result;
ties keep the original relative order (for every score, filtering the
sorted list to that score returns exactly the pre-sort candidates of
that score in order); the result is truncated to the effective limit;
and in the concrete scenario the query pet ranks get_pet_by_id above
get_store_inventory while a store tag filter excludes get_pet_by_id. -/
theorem searchEndpoints_ranking :
    (∀ (tools : List GeneratedTool) (query : String)
        (opts : SearchOptions) (p : GeneratedTool × Nat),
      p ∈ rankEndpoints tools query opts →
      0 < p.2 ∧ p.2 = scoreTool query p.1)
    ∧ (∀ (tools : List GeneratedTool) (query : String)
        (opts : SearchOptions),
        sortedDescBool (rankEndpoints tools query opts) = true)
    ∧ (∀ (tools : List GeneratedTool) (query : String)
        (opts : SearchOptions) (s : Nat),
        (sortScoredDesc (((methodFilter (tagFilter tools opts.tags)
            opts.methods).map (fun t => (t, scoreTool query t))).filter
              (fun p => decide (0 < p.2)))).filter (fun p => p.2 == s)
        = (((methodFilter (tagFilter tools opts.tags) opts.methods).map
            (fun t => (t, scoreTool query t))).filter
              (fun p => decide (0 < p.2))).filter (fun p => p.2 == s))
    ∧ (∀ (tools : List GeneratedTool) (query : String)
        (opts : SearchOptions), 0 ≤ jsLimit opts.limit →
        (searchEndpoints tools query opts).length
          ≤ (jsLimit opts.limit).toNat)
    ∧ (searchEndpoints [petTool, storeTool] "pet" ⟨none, none, none⟩).map
        (fun t => t.name) = ["get_pet_by_id", "get_store_inventory"]
    ∧ "get_pet_by_id" ∉ (searchEndpoints [petTool, storeTool] "pet"
        ⟨some ["store"], none, none⟩).map (fun t => t.name) := by
  refine ⟨rankEndpoints_mem, ?_, ?_, ?_, by decide, by decide⟩
  · intro tools query opts
    simp only [rankEndpoints, jsSliceTo]
    split <;> exact sortedDescBool_take _ _ (sortScoredDesc_sorted _)
  · intro tools query opts s
    exact filter_sortScoredDesc _ _
  · intro tools query opts h
    simpa [searchEndpoints, List.length_map] using
      rankEndpoints_length_le tools query opts h

/-- C7 witness: the hypothesis-bearing parts at concrete inputs — the
first ranked pair of the scenario, and a concrete positive limit. -/
theorem searchEndpoints_ranking_witness :
    (0 < (petTool, scoreTool "pet" petTool).2
      ∧ (petTool, scoreTool "pet" petTool).2
          = scoreTool "pet" (petTool, scoreTool "pet" petTool).1)
    ∧ (searchEndpoints [petTool, storeTool] "pet"
        ⟨none, none, some 3⟩).length ≤ (jsLimit (some 3)).toNat :=
  ⟨searchEndpoints_ranking.1 [petTool, storeTool] "pet" ⟨none, none, none⟩
     (petTool, scoreTool "pet" petTool) (List.Mem.head _),
   searchEndpoints_ranking.2.2.2.1 [petTool, storeTool] "pet"
     ⟨none, none, some 3⟩ (show (0:Int) ≤ jsLimit (some 3) by decide)⟩

/-! Helper lemmas for the input-schema invariant. -/

theorem recordSet_mem_keys_self (r : List (String × Json)) (key : String)
    (v : Json) : key ∈ (recordSet r key v).map Prod.fst := by
  induction r with
  | nil => simp [recordSet]
  | cons kv rest ih =>
    obtain ⟨k, w⟩ := kv
    simp only [recordSet]
    split
    · next heq => simp [heq]
    · simp [ih]

theorem recordSet_mem_keys_of_mem (r : List (String × Json)) (key : String)
    (v : Json) (n : String) (h : n ∈ r.map Prod.fst) :
    n ∈ (recordSet r key v).map Prod.fst := by
  induction r with
  | nil => simp at h
  | cons kv rest ih =>
    obtain ⟨k, w⟩ := kv
    simp only [List.map_cons, List.mem_cons] at h
    simp only [recordSet]
    split
    · next heq =>
      rcases h with h | h <;> simp [h]
    · rcases h with h | h
      · simp [h]
      · simp [ih h]

theorem addParamsToSchema_inv :
    ∀ (ps : List ParameterInfo) (props : List (String × Json))
      (req : List String),
      (∀ n ∈ req, n ∈ props.map Prod.fst) →
      ∀ n ∈ (addParamsToSchema ps (props, req)).2,
        n ∈ (addParamsToSchema ps (props, req)).1.map Prod.fst
  | [], props, req, h => by simpa [addParamsToSchema] using h
  | p :: ps, props, req, h => by
    simp only [addParamsToSchema]
    apply addParamsToSchema_inv ps
    intro n hn
    by_cases hreq : p.required = true
    · rw [if_pos hreq] at hn
      rw [List.mem_append] at hn
      rcases hn with hn | hn
      · exact recordSet_mem_keys_of_mem _ _ _ _ (h n hn)
      · simp only [List.mem_singleton] at hn
        subst hn
        exact recordSet_mem_keys_self _ _ _
    · rw [if_neg hreq] at hn
      exact recordSet_mem_keys_of_mem _ _ _ _ (h n hn)

theorem addBodyProps_inv :
    ∀ (entries : List (String × Json)) (rf : Option Json) (rq : Bool)
      (props : List (String × Json)) (req : List String),
      (∀ n ∈ req, n ∈ props.map Prod.fst) →
      ∀ n ∈ (addBodyProps rf rq entries (props, req)).2,
        n ∈ (addBodyProps rf rq entries (props, req)).1.map Prod.fst
  | [], _, _, props, req, h => by simpa [addBodyProps] using h
  | (pn, ps) :: rest, rf, rq, props, req, h => by
    simp only [addBodyProps]
    apply addBodyProps_inv rest
    intro n hn
    by_cases hreq : (bodyRequiredIncludes rf pn && rq) = true
    · rw [if_pos hreq] at hn
      rw [List.mem_append] at hn
      rcases hn with hn | hn
      · exact recordSet_mem_keys_of_mem _ _ _ _ (h n hn)
      · simp only [List.mem_singleton] at hn
        subst hn
        exact recordSet_mem_keys_self _ _ _
    · rw [if_neg hreq] at hn
      exact recordSet_mem_keys_of_mem _ _ _ _ (h n hn)

theorem addBodyProps_keys_entries :
    ∀ (entries : List (String × Json)) (rf : Option Json) (rq : Bool)
      (props : List (String × Json)) (req : List String) (pn : String),
      pn ∈ entries.map Prod.fst ∨ pn ∈ props.map Prod.fst →
      pn ∈ (addBodyProps rf rq entries (props, req)).1.map Prod.fst
  | [], _, _, props, req, pn, h => by
    rcases h with h | h
    · simp at h
    · simpa [addBodyProps] using h
  | (qn, qs) :: rest, rf, rq, props, req, pn, h => by
    simp only [addBodyProps]
    apply addBodyProps_keys_entries rest
    rcases h with h | h
    · simp only [List.map_cons, List.mem_cons] at h
      rcases h with h | h
      · subst h
        exact Or.inr (recordSet_mem_keys_self _ _ _)
      · exact Or.inl h
    · exact Or.inr (recordSet_mem_keys_of_mem _ _ _ _ h)

theorem addBodyProps_req :
    ∀ (entries : List (String × Json)) (rf : Option Json) (rq : Bool)
      (props : List (String × Json)) (req : List String),
      (addBodyProps rf rq entries (props, req)).2
        = req ++ entries.filterMap (fun pv =>
            if bodyRequiredIncludes rf pv.1 && rq then some pv.1 else none)
  | [], _, _, props, req => by simp [addBodyProps]
  | (pn, ps) :: rest, rf, rq, props, req => by
    simp only [addBodyProps, List.filterMap_cons]
    by_cases hreq : (bodyRequiredIncludes rf pn && rq) = true
    · rw [if_pos hreq, addBodyProps_req rest, if_pos hreq]
      simp
    · rw [if_neg hreq, addBodyProps_req rest, if_neg hreq]

/-- C5: every generated input schema is an object schema whose required
names are all keys of its properties; and when the request body schema
is an object with a properties map, each body property is flattened
into the top level and the required list extends the parameter-derived
one by exactly the body properties listed in the body schema's own
required array, kept only when the body itself is required. -/
theorem generateInputSchema_wellFormed (e : ParsedEndpoint) :
    (generateInputSchema e).type = "object"
    ∧ (∀ n ∈ (generateInputSchema e).required,
        n ∈ (generateInputSchema e).properties.map Prod.fst)
    ∧ (∀ rb props, e.requestBody = some rb →
        getField rb.schema "type" = some (Json.str "object") →
        getField rb.schema "properties" = some (Json.obj props) →
        (∀ pn ∈ props.map Prod.fst,
          pn ∈ (generateInputSchema e).properties.map Prod.fst)
        ∧ (generateInputSchema e).required
            = (addParamsToSchema e.queryParams
                (addParamsToSchema e.pathParams ([], []))).2
              ++ props.filterMap (fun pv =>
                  if bodyRequiredIncludes (getField rb.schema "required")
                      pv.1 && rb.required
                  then some pv.1 else none)) := by
  have hacc : ∀ n ∈ (addParamsToSchema e.queryParams
      (addParamsToSchema e.pathParams ([], []))).2,
      n ∈ (addParamsToSchema e.queryParams
        (addParamsToSchema e.pathParams ([], []))).1.map Prod.fst := by
    apply addParamsToSchema_inv
    apply addParamsToSchema_inv
    intro n hn
    simp at hn
  refine ⟨?_, ?_, ?_⟩
  · cases h : e.requestBody with
    | none => simp [generateInputSchema, h]
    | some rb =>
      simp only [generateInputSchema, h]
      split <;> rfl
  · cases h : e.requestBody with
    | none => simpa [generateInputSchema, h] using hacc
    | some rb =>
      simp only [generateInputSchema, h]
      split
      · exact addBodyProps_inv _ _ _ _ _ hacc
      · intro n hn
        by_cases hreq : rb.required = true
        · rw [if_pos hreq] at hn
          rw [List.mem_append] at hn
          rcases hn with hn | hn
          · exact recordSet_mem_keys_of_mem _ _ _ _ (hacc n hn)
          · simp only [List.mem_singleton] at hn
            subst hn
            exact recordSet_mem_keys_self _ _ _
        · rw [if_neg hreq] at hn
          exact recordSet_mem_keys_of_mem _ _ _ _ (hacc n hn)
  · intro rb props hrb htype hprops
    have hcond : ((match getField rb.schema "type" with
        | some (Json.str t) => decide (t = "object")
        | _ => false)
        && truthyOpt (getField rb.schema "properties")) = true := by
      rw [htype, hprops]
      simp [truthyOpt, truthy]
    have hentries : jsEntries ((getField rb.schema "properties").getD
        Json.null) = props := by
      rw [hprops]
      rfl
    constructor
    · intro pn hpn
      simp only [generateInputSchema, hrb, hcond, if_true, hentries]
      exact addBodyProps_keys_entries _ _ _ _ _ _ (Or.inl hpn)
    · simp only [generateInputSchema, hrb, hcond, if_true, hentries]
      exact addBodyProps_req _ _ _ _ _

/-- C5 witness: the statement at the concrete endpoint with an object
request body (properties name and status, with name alone in the body
schema's required array). -/
theorem generateInputSchema_wellFormed_witness :
    (generateInputSchema bodyEndpoint).type = "object"
    ∧ (generateInputSchema bodyEndpoint).required
        = (addParamsToSchema bodyEndpoint.queryParams
            (addParamsToSchema bodyEndpoint.pathParams ([], []))).2
          ++ [("name", Json.obj [("type", Json.str "string")]),
              ("status", Json.obj [("type", Json.str "string")])].filterMap
              (fun pv =>
                if bodyRequiredIncludes (getField petBody.schema "required")
                    pv.1 && petBody.required
                then some pv.1 else none) :=
  ⟨(generateInputSchema_wellFormed bodyEndpoint).1,
   ((generateInputSchema_wellFormed bodyEndpoint).2.2 petBody
     [("name", Json.obj [("type", Json.str "string")]),
      ("status", Json.obj [("type", Json.str "string")])]
     rfl rfl rfl).2⟩

/-! Helper lemmas for the summary and grouping statistics. -/

def untaggedTool : GeneratedTool :=
  endpointToTool { petEndpoint with tags := [] }

def twoTagTool : GeneratedTool :=
  endpointToTool { storeEndpoint with tags := ["store", "shop"] }

theorem countIncr_sum (r : List (String × Nat)) (key : String) :
    ((countIncr r key).map Prod.snd).sum = (r.map Prod.snd).sum + 1 := by
  induction r with
  | nil => rfl
  | cons kv rest ih =>
    obtain ⟨k, n⟩ := kv
    simp only [countIncr]
    split
    · simp
      omega
    · simp [ih]
      omega

theorem tagCounts_sum :
    ∀ (tags : List String) (acc : List (String × Nat)),
      ((tagCounts tags acc).map Prod.snd).sum
        = (acc.map Prod.snd).sum + tags.length
  | [], acc => by simp [tagCounts]
  | tag :: rest, acc => by
    rw [tagCounts, tagCounts_sum rest, countIncr_sum]
    simp
    omega

theorem summaryLoop_sum :
    ∀ (tools : List GeneratedTool) (bm bt : List (String × Nat)),
      ((summaryLoop tools (bm, bt)).2.map Prod.snd).sum
        = (bt.map Prod.snd).sum
          + (tools.map (fun t => t.endpoint.tags.length)).sum
  | [], bm, bt => by simp [summaryLoop]
  | t :: ts, bm, bt => by
    rw [summaryLoop, summaryLoop_sum ts, tagCounts_sum]
    simp
    omega

theorem countIncr_keys (r : List (String × Nat)) (key n : String)
    (h : n ∈ (countIncr r key).map Prod.fst) :
    n ∈ r.map Prod.fst ∨ n = key := by
  induction r with
  | nil => simpa [countIncr] using h
  | cons kv rest ih =>
    obtain ⟨k, m⟩ := kv
    simp only [countIncr] at h
    split at h
    · next heq =>
      simp only [List.map_cons, List.mem_cons] at h ⊢
      tauto
    · simp only [List.map_cons, List.mem_cons] at h ⊢
      rcases h with h | h
      · tauto
      · rcases ih h with h' | h' <;> tauto

theorem tagCounts_keys :
    ∀ (tags : List String) (acc : List (String × Nat)) (n : String),
      n ∈ (tagCounts tags acc).map Prod.fst →
      n ∈ acc.map Prod.fst ∨ n ∈ tags
  | [], _, _, h => Or.inl h
  | tag :: rest, acc, n, h => by
    rw [tagCounts] at h
    rcases tagCounts_keys rest (countIncr acc tag) n h with h' | h'
    · rcases countIncr_keys acc tag n h' with h'' | h''
      · exact Or.inl h''
      · subst h''
        simp
    · simp [h']

theorem summaryLoop_keys :
    ∀ (tools : List GeneratedTool) (bm bt : List (String × Nat))
      (n : String),
      n ∈ (summaryLoop tools (bm, bt)).2.map Prod.fst →
      n ∈ bt.map Prod.fst ∨ ∃ t ∈ tools, n ∈ t.endpoint.tags
  | [], _, _, _, h => Or.inl h
  | t :: ts, bm, bt, n, h => by
    rw [summaryLoop] at h
    rcases summaryLoop_keys ts _ _ n h with h' | h'
    · rcases tagCounts_keys _ _ _ h' with h'' | h''
      · exact Or.inl h''
      · exact Or.inr ⟨t, by simp, h''⟩
    · obtain ⟨u, hu, hn⟩ := h'
      exact Or.inr ⟨u, by simp [hu], hn⟩

theorem groupsAdd_adds (groups : List (String × List GeneratedTool))
    (tag : String) (tool : GeneratedTool) :
    ∃ g ∈ groupsAdd groups tag tool, g.1 = tag ∧ tool ∈ g.2 := by
  induction groups with
  | nil => exact ⟨(tag, [tool]), by simp [groupsAdd]⟩
  | cons kv rest ih =>
    obtain ⟨k, ts⟩ := kv
    simp only [groupsAdd]
    split
    · next heq =>
      exact ⟨(k, ts ++ [tool]), by simp [heq]⟩
    · obtain ⟨g, hg, hgt⟩ := ih
      exact ⟨g, by simp [hg], hgt⟩

theorem groupsAdd_preserves (groups : List (String × List GeneratedTool))
    (tag : String) (tool : GeneratedTool) (key : String) (x : GeneratedTool)
    (h : ∃ g ∈ groups, g.1 = key ∧ x ∈ g.2) :
    ∃ g ∈ groupsAdd groups tag tool, g.1 = key ∧ x ∈ g.2 := by
  induction groups with
  | nil => simp at h
  | cons kv rest ih =>
    obtain ⟨k, ts⟩ := kv
    obtain ⟨g, hg, hgk, hgx⟩ := h
    simp only [List.mem_cons] at hg
    simp only [groupsAdd]
    split
    · next heq =>
      rcases hg with hg | hg
      · subst hg
        exact ⟨(k, ts ++ [tool]), by simp, hgk, by simp [hgx]⟩
      · exact ⟨g, by simp [hg], hgk, hgx⟩
    · rcases hg with hg | hg
      · subst hg
        exact ⟨(k, ts), by simp, hgk, hgx⟩
      · obtain ⟨g', hg', hgt'⟩ := ih ⟨g, hg, hgk, hgx⟩
        exact ⟨g', by simp [hg'], hgt'⟩

theorem groupsAddAll_preserves (tool : GeneratedTool) :
    ∀ (tags : List String) (groups : List (String × List GeneratedTool))
      (key : String) (x : GeneratedTool),
      (∃ g ∈ groups, g.1 = key ∧ x ∈ g.2) →
      ∃ g ∈ groupsAddAll tool tags groups, g.1 = key ∧ x ∈ g.2
  | [], _, _, _, h => h
  | tag :: rest, groups, key, x, h =>
    groupsAddAll_preserves tool rest _ key x
      (groupsAdd_preserves groups tag tool key x h)

theorem groupToolsGo_preserves :
    ∀ (tools : List GeneratedTool)
      (groups : List (String × List GeneratedTool)) (key : String)
      (x : GeneratedTool),
      (∃ g ∈ groups, g.1 = key ∧ x ∈ g.2) →
      ∃ g ∈ groupToolsGo tools groups, g.1 = key ∧ x ∈ g.2
  | [], _, _, _, h => h
  | t :: ts, groups, key, x, h =>
    groupToolsGo_preserves ts _ key x (groupsAddAll_preserves t _ groups key x h)

theorem groupToolsGo_default :
    ∀ (tools : List GeneratedTool)
      (groups : List (String × List GeneratedTool)) (t : GeneratedTool),
      t ∈ tools → t.endpoint.tags = [] →
      ∃ g ∈ groupToolsGo tools groups, g.1 = "default" ∧ t ∈ g.2
  | [], groups, t, ht, _ => by simp at ht
  | u :: ts, groups, t, ht, htags => by
    rw [List.mem_cons] at ht
    rcases ht with ht | ht
    · subst ht
      rw [groupToolsGo]
      have htag : (if t.endpoint.tags.isEmpty then ["default"]
          else t.endpoint.tags) = ["default"] := by
        simp [htags]
      rw [htag]
      exact groupToolsGo_preserves ts _ "default" t
        (groupsAdd_adds groups "default" t)
    · exact groupToolsGo_default ts _ t ht htags

theorem tags_sum_le_length (tools : List GeneratedTool)
    (h : ∀ t ∈ tools, t.endpoint.tags.length ≤ 1) :
    (tools.map (fun t => t.endpoint.tags.length)).sum ≤ tools.length := by
  induction tools with
  | nil => simp
  | cons t ts ih =>
    have h1 := h t (by simp)
    have h2 := ih (fun u hu => h u (by simp [hu]))
    simp only [List.map_cons, List.sum_cons, List.length_cons]
    omega

theorem tags_sum_lt_length (tools : List GeneratedTool)
    (h : ∀ t ∈ tools, t.endpoint.tags.length ≤ 1)
    (hz : ∃ t ∈ tools, t.endpoint.tags = []) :
    (tools.map (fun t => t.endpoint.tags.length)).sum < tools.length := by
  induction tools with
  | nil => simp at hz
  | cons t ts ih =>
    obtain ⟨u, hu, hutags⟩ := hz
    rw [List.mem_cons] at hu
    simp only [List.map_cons, List.sum_cons, List.length_cons]
    rcases hu with hu | hu
    · subst hu
      rw [hutags]
      have := tags_sum_le_length ts (fun v hv => h v (by simp [hv]))
      simpa using Nat.lt_succ_of_le this
    · have h1 := h t (by simp)
      have h2 := ih (fun v hv => h v (by simp [hv])) ⟨u, hu, hutags⟩
      omega

/-- C10 counterexample: with an untagged tool alongside a two-tag tool,
the sum of byTag counts equals the total tool count, so the claimed
strict inequality fails even though a tool is untagged. -/
theorem getToolsSummary_byTag_counterexample :
    ((getToolsSummary [untaggedTool, twoTagTool]).byTag.map
        Prod.snd).sum = 2
    ∧ (getToolsSummary [untaggedTool, twoTagTool]).total = 2
    ∧ untaggedTool.endpoint.tags = []
    ∧ ¬(((getToolsSummary [untaggedTool, twoTagTool]).byTag.map
          Prod.snd).sum
        < (getToolsSummary [untaggedTool, twoTagTool]).total) := by
  refine ⟨by decide, by decide, by decide, by decide⟩

/-- C10 amended: byTag counts one entry per (tool, tag) pair — their sum
is the total number of tag occurrences — and carries no synthetic
default key (every byTag key is a tag of some tool), while
groupToolsByTag places every zero-tag tool under the default group; the
sum is strictly below the total when additionally every tool has at
most one tag and some tool is untagged. -/
theorem getToolsSummary_byTag_spec (tools : List GeneratedTool) :
    ((getToolsSummary tools).byTag.map Prod.snd).sum
      = (tools.map (fun t => t.endpoint.tags.length)).sum
    ∧ (∀ k ∈ (getToolsSummary tools).byTag.map Prod.fst,
        ∃ t ∈ tools, k ∈ t.endpoint.tags)
    ∧ (∀ t ∈ tools, t.endpoint.tags = [] →
        ∃ g ∈ groupToolsByTag tools, g.1 = "default" ∧ t ∈ g.2)
    ∧ ((∀ t ∈ tools, t.endpoint.tags.length ≤ 1) →
        (∃ t ∈ tools, t.endpoint.tags = []) →
        ((getToolsSummary tools).byTag.map Prod.snd).sum
          < (getToolsSummary tools).total) := by
  refine ⟨?_, ?_, ?_, ?_⟩
  · simpa [getToolsSummary] using summaryLoop_sum tools [] []
  · intro k hk
    have := summaryLoop_keys tools [] [] k (by simpa [getToolsSummary] using hk)
    simpa using this
  · intro t ht htags
    exact groupToolsGo_default tools [] t ht htags
  · intro h1 h2
    have hsum : ((getToolsSummary tools).byTag.map Prod.snd).sum
        = (tools.map (fun t => t.endpoint.tags.length)).sum := by
      simpa [getToolsSummary] using summaryLoop_sum tools [] []
    rw [hsum]
    exact tags_sum_lt_length tools h1 h2

/-- C10 witness: the amended inequality at a concrete untagged plus
single-tagged tool list. -/
theorem getToolsSummary_byTag_spec_witness :
    ((getToolsSummary [untaggedTool, petTool]).byTag.map Prod.snd).sum
      < (getToolsSummary [untaggedTool, petTool]).total :=
  (getToolsSummary_byTag_spec [untaggedTool, petTool]).2.2.2 (by decide)
    ⟨untaggedTool, List.Mem.head _, rfl⟩

end Specky
